import Mathlib

/-!
# Verification of the OpenEP free-boundary / interpolation pipeline

Shallow embedding of `openep/draw_routines.py`: the `FreeBoundary` class
(`separate_boundaries`, `calculate_lengths`, `_line_length`,
`calculate_areas`, `_create_boundary_meshes`), the free-boundary extractor
`get_freeboundaries`, the voltage pipeline `get_voltage_electroanatomic`,
and `get_anatomical_structures`.

Conventions of the embedding:
* numpy float arrays of coordinates are modelled as lists of real triples;
  `np.sqrt` is `Real.sqrt`.
* Values that can be NaN (after window-of-interest masking) are
  modelled as `Option ℚ` (`none` = NaN); numpy max/min/subtraction
  propagate NaN, which `none` propagation mirrors.
* `trimesh` is an external dependency.  `tm_mesh.outline().entities` is
  passed to the embedded `get_freeboundaries` as an explicit argument
  `entities : List (List ℕ)`: the per-boundary arrays `line.points` of
  vertex indices, in which a closed boundary loop is stored with its
  first vertex repeated at the end (`points[0] == points[-1]`).  The
  trimesh contract for a 2-manifold mesh with boundary is captured by
  the decidable predicate `OutlineOk` below.
* Python exceptions are modelled with `Except`.
-/

/-! ## List utilities mirroring the numpy operations used by the source -/

/-- `np.cumsum`: running partial sums, same length as the input. -/
def cumsum : List ℕ → List ℕ
  | [] => []
  | a :: t => a :: (cumsum t).map (a + ·)

/-- Python slice `l[start:stop]` (`stop = none` encodes `l[start:]`),
for non-negative indices. -/
def pySlice (l : List α) (start : ℕ) (stop : Option ℕ) : List α :=
  match stop with
  | some s => (l.take s).drop start
  | none => l.drop start

/-- The pairs of consecutive elements of a list:
`np.vstack([x[:-1], x[1:]]).T` (equivalently `x.zip x.tail`). -/
def consecPairs : List α → List (α × α)
  | a :: b :: rest => (a, b) :: consecPairs (b :: rest)
  | _ => []

/-- Remove the elements of `l` whose positions occur in `bad`: the model of
boolean-mask indexing `l[keep]` where `keep` is all-True except at the
positions in `bad`. -/
def dropAt : List α → List ℕ → List α
  | [], _ => []
  | a :: t, bad =>
      (if 0 ∈ bad then ([] : List α) else [a]) ++
        dropAt t ((bad.filter (0 < ·)).map (· - 1))

/-! ## Geometry: points, distances, triangle areas -/

/-- A 3-D cartesian point (one row of an `Nx3` numpy float array). -/
abbrev Point3 := ℝ × ℝ × ℝ

/-- Componentwise difference `b - a` (one row of `np.diff`). -/
def sub3 (a b : Point3) : Point3 := (b.1 - a.1, b.2.1 - a.2.1, b.2.2 - a.2.2)

/-- Euclidean distance between two points:
`np.sqrt(np.sum(np.square(np.diff(...))))`. -/
noncomputable def dist3 (a b : Point3) : ℝ :=
  Real.sqrt ((b.1 - a.1) ^ 2 + (b.2.1 - a.2.1) ^ 2 + (b.2.2 - a.2.2) ^ 2)

/-- `FreeBoundary._line_length`: the sum of Euclidean distances between
consecutive points of the sequence (`np.diff` followed by row-norms and
`np.sum`); there is no wrap-around term. -/
noncomputable def line_length : List Point3 → ℝ
  | a :: b :: rest => dist3 a b + line_length (b :: rest)
  | _ => 0

/-- 3-D cross product (used by VTK/pyvista to compute triangle areas). -/
def cross3 (u v : Point3) : Point3 :=
  (u.2.1 * v.2.2 - u.2.2 * v.2.1,
   u.2.2 * v.1 - u.1 * v.2.2,
   u.1 * v.2.1 - u.2.1 * v.1)

/-- Euclidean norm of a 3-vector. -/
noncomputable def norm3 (u : Point3) : ℝ :=
  Real.sqrt (u.1 ^ 2 + u.2.1 ^ 2 + u.2.2 ^ 2)

/-- Area of the triangle `a b c`: half the norm of the cross product of two
edge vectors — the standard formula used by `pyvista.PolyData.area` for
each triangular face. -/
noncomputable def triangle_area (a b c : Point3) : ℝ :=
  norm3 (cross3 (sub3 a b) (sub3 a c)) / 2

/-- `np.mean(points, axis=0)`: the centroid of a list of points. -/
noncomputable def centroid (pts : List Point3) : Point3 :=
  ((pts.map (·.1)).sum / pts.length,
   (pts.map (·.2.1)).sum / pts.length,
   (pts.map (·.2.2)).sum / pts.length)

/-- The cyclic consecutive pairs of a loop's point list:
`vertex_two = 1..n`, `vertex_three = np.roll(vertex_two, -1)` in
`FreeBoundary._create_boundary_meshes` pair each point with its cyclic
successor, the last point being paired with the first. -/
def cyclePairs (pts : List α) : List (α × α) := pts.zip (pts.rotate 1)

/-- The total area of the fan-triangulation mesh built by
`FreeBoundary._create_boundary_meshes` for one boundary: the centroid is
prepended and every cyclically consecutive point pair forms a triangle
with it; `pyvista.PolyData.area` sums the triangle areas. -/
noncomputable def fan_area (pts : List Point3) : ℝ :=
  ((cyclePairs pts).map (fun p => triangle_area (centroid pts) p.1 p.2)).sum

/-! ## Mesh edges and boundary edges -/

/-- An undirected edge stored with its endpoints sorted. -/
def sortEdge (e : ℕ × ℕ) : ℕ × ℕ := if e.1 ≤ e.2 then e else (e.2, e.1)

/-- The three undirected edges of a triangular face. -/
def faceEdges (f : ℕ × ℕ × ℕ) : List (ℕ × ℕ) :=
  [sortEdge (f.1, f.2.1), sortEdge (f.2.1, f.2.2), sortEdge (f.1, f.2.2)]

/-- All face edges of a triangulated mesh, with multiplicity. -/
def allEdges (faces : List (ℕ × ℕ × ℕ)) : List (ℕ × ℕ) :=
  (faces.map faceEdges).flatten

/-- The boundary edges of a mesh: the undirected edges that belong to
exactly one triangle. -/
def boundaryEdges (faces : List (ℕ × ℕ × ℕ)) : List (ℕ × ℕ) :=
  (allEdges faces).dedup.filter (fun e => (allEdges faces).count e = 1)

/-! ## The `FreeBoundary` dataclass -/

/-- The `FreeBoundary` dataclass: `mesh.points` (as `mesh_points`),
`freeboundary` (Nx2 index pairs), `free_boundary_points` (coordinates of
the first node of each pair), `n_boundaries` and `n_nodes_per_boundary`. -/
structure FreeBoundary where
  mesh_points : List Point3
  freeboundary : List (ℕ × ℕ)
  free_boundary_points : List Point3
  n_boundaries : ℕ
  n_nodes_per_boundary : List ℕ

/-- `__post_init__`: `start_indices = [0] + cumsum(n_nodes_per_boundary[:-1] - 1)`. -/
def start_indices (n_nodes : List ℕ) : List ℕ :=
  0 :: cumsum (n_nodes.dropLast.map (· - 1))

/-- `__post_init__`: `stop_indices = start_indices[1:] + [None]`. -/
def stop_indices (n_nodes : List ℕ) : List (Option ℕ) :=
  (start_indices n_nodes).tail.map some ++ [none]

/-- `zip(self._start_indices, self._stop_indices)`. -/
def startStop (n_nodes : List ℕ) : List (ℕ × Option ℕ) :=
  (start_indices n_nodes).zip (stop_indices n_nodes)

/-- `FreeBoundary.separate_boundaries`: slice the Nx2 `freeboundary` array
into one block of index pairs per boundary. -/
def separate_boundaries (fb : FreeBoundary) : List (List (ℕ × ℕ)) :=
  (startStop fb.n_nodes_per_boundary).map
    (fun p => pySlice fb.freeboundary p.1 p.2)

/-- `FreeBoundary.calculate_lengths`: apply `_line_length` to each
boundary's slice of `free_boundary_points`. -/
noncomputable def calculate_lengths (fb : FreeBoundary) : List ℝ :=
  (startStop fb.n_nodes_per_boundary).map
    (fun p => line_length (pySlice fb.free_boundary_points p.1 p.2))

/-- The points of one separated boundary: `self.mesh.points[boundary[:, 0]]`
in `FreeBoundary._create_boundary_meshes`. -/
def loopPoints (fb : FreeBoundary) (boundary : List (ℕ × ℕ)) : List Point3 :=
  boundary.map (fun pr => fb.mesh_points.getD pr.1 (0, 0, 0))

/-- `FreeBoundary.calculate_areas`: build the fan-triangulation mesh of
each separated boundary (`_create_boundary_meshes`) and take its
`pyvista` surface area. -/
noncomputable def calculate_areas (fb : FreeBoundary) : List ℝ :=
  (separate_boundaries fb).map (fun b => fan_area (loopPoints fb b))

/-! ## `get_freeboundaries` -/

/-- `ValueError` raised by `np.concatenate` on an empty sequence of
arrays. -/
inductive NumpyError where
  | concatenateEmpty
  deriving DecidableEq

/-- `get_freeboundaries(mesh)`.  `vertices` is `tm_mesh.vertices` and
`entities` stands for `tm_mesh.outline().entities`: one array
`line.points` of vertex indices per boundary, a closed loop being stored
with its first vertex repeated at the end.  Mirrors the source line by
line: concatenate all boundary node arrays (`np.concatenate` raises
`ValueError` on an empty list), pair consecutive nodes, drop the pairs
that straddle two boundaries (positions `cumsum(n_nodes[:-1]) - 1`), and
look up the coordinates of the first node of each pair. -/
def get_freeboundaries (vertices : List Point3) (entities : List (List ℕ)) :
    Except NumpyError FreeBoundary :=
  if entities.isEmpty then .error .concatenateEmpty
  else
    let all_boundaries_nodes := entities.flatten
    let n_nodes_per_boundary := entities.map List.length
    let raw_pairs := all_boundaries_nodes.zip all_boundaries_nodes.tail
    let bad_positions := (cumsum n_nodes_per_boundary.dropLast).map (· - 1)
    let free_boundaries := dropAt raw_pairs bad_positions
    let free_boundaries_points :=
      free_boundaries.map (fun e => vertices.getD e.1 (0, 0, 0))
    .ok
      { mesh_points := vertices
        freeboundary := free_boundaries
        free_boundary_points := free_boundaries_points
        n_boundaries := entities.length
        n_nodes_per_boundary := n_nodes_per_boundary }

/-- The contract of `trimesh`'s `outline()` applied to a triangulated
2-manifold mesh: every outline entity is a closed boundary loop of at
least 3 distinct vertices, stored with its first vertex repeated at the
end (so `line.points` has length at least 4, `head = last`, and the
points before the repeated endpoint are distinct), and the entities'
consecutive-pair edges enumerate the mesh's boundary edges exactly once
(a permutation of `boundaryEdges`). -/
def OutlineOk (faces : List (ℕ × ℕ × ℕ)) (entities : List (List ℕ)) : Prop :=
  (∀ e ∈ entities, 4 ≤ e.length ∧ e.head? = e.getLast? ∧ e.dropLast.Nodup) ∧
  List.Perm ((entities.map (fun e => (consecPairs e).map sortEdge)).flatten)
    (boundaryEdges faces)

instance (faces : List (ℕ × ℕ × ℕ)) (entities : List (List ℕ)) :
    Decidable (OutlineOk faces entities) := by
  unfold OutlineOk
  infer_instance

/-- A list of directed index pairs forming a single closed simple cycle of
length at least 3: consecutive pairs are chained second-to-first, the last
pair closes back to the first, and no vertex is visited twice. -/
def IsSimpleCycle (pairs : List (ℕ × ℕ)) : Prop :=
  3 ≤ pairs.length ∧ (pairs.map Prod.fst).Nodup ∧
  List.Chain' (fun p q => p.2 = q.1) pairs ∧
  pairs.getLast?.map Prod.snd = pairs.head?.map Prod.fst

/-- An open mesh: a unit square split into two triangles; its boundary is
one loop of 4 edges. -/
def squareVertices : List Point3 := [(0, 0, 0), (1, 0, 0), (1, 1, 0), (0, 1, 0)]

/-- Faces of the two-triangle square mesh. -/
def squareFaces : List (ℕ × ℕ × ℕ) := [(0, 1, 2), (0, 2, 3)]

/-- The trimesh outline of the square mesh: one closed entity, the first
vertex repeated at the end. -/
def squareEntities : List (List ℕ) := [[0, 1, 2, 3, 0]]

/-- A closed mesh: the tetrahedron (4 faces, no boundary edges). -/
def tetVertices : List Point3 := [(0, 0, 0), (1, 0, 0), (0, 1, 0), (0, 0, 1)]

/-- Faces of the tetrahedron. -/
def tetFaces : List (ℕ × ℕ × ℕ) := [(0, 1, 2), (0, 1, 3), (0, 2, 3), (1, 2, 3)]

/-- The ordered distinct points of the triangular boundary loop used as
the C1 failing input: side lengths 5, 5 and (closing segment) 6. -/
def triLoopPoints : List Point3 := [(0, 0, 0), (3, 4, 0), (6, 0, 0)]

/-- The `FreeBoundary` for the triangular loop: the trimesh entity is
`[0, 1, 2, 0]` (first vertex repeated), so `n_nodes_per_boundary = [4]`,
`freeboundary` holds the three directed edge pairs and
`free_boundary_points` the three distinct loop points. -/
def triFB : FreeBoundary :=
  { mesh_points := triLoopPoints
    freeboundary := [(0, 1), (1, 2), (2, 0)]
    free_boundary_points := triLoopPoints
    n_boundaries := 1
    n_nodes_per_boundary := [4] }

/-- The spec's perimeter formula for a closed loop: the sum of Euclidean
distances between consecutive points of the ordered point sequence plus
the wrap-around closing segment from the last point back to the first.
Stated from the spec (section 4.3) for comparison with
`calculate_lengths`. -/
noncomputable def spec_loop_perimeter (pts : List Point3) : ℝ :=
  line_length pts +
    ((pts.getLast?.bind (fun l => pts.head?.map (fun h => dist3 l h))).getD 0)

/-! ## Fan-triangulation area versus the shoelace formula -/

/-- 2-D cross product (the scalar `z`-component). -/
def cross2 (u v : ℝ × ℝ) : ℝ := u.1 * v.2 - u.2 * v.1

/-- The signed doubled triangle areas of the fan built from the centroid:
for each cyclically consecutive point pair `(p, q)` of the loop, the 2-D
cross product of `p - centroid` and `q - centroid` (loop assumed to lie
in the `z = 0` plane). -/
noncomputable def fanCross (pts : List Point3) : List ℝ :=
  (cyclePairs pts).map (fun pr =>
    (pr.1.1 - (centroid pts).1) * (pr.2.2.1 - (centroid pts).2.1) -
      (pr.1.2.1 - (centroid pts).2.1) * (pr.2.1 - (centroid pts).1))

/-- The spec's "standard polygon-area formula" (shoelace) for a planar
polygon given by its ordered 2-D vertices; stated from the spec for
comparison with `calculate_areas`. -/
noncomputable def polygon_area_2d (pts : List (ℝ × ℝ)) : ℝ :=
  |((pts.zip (pts.rotate 1)).map (fun pr => cross2 pr.1 pr.2)).sum| / 2

/-- The `FreeBoundary` of the two-triangle square mesh: one boundary loop
(trimesh entity `[0, 1, 2, 3, 0]`, so `n_nodes_per_boundary = [5]`). -/
def squareFB : FreeBoundary :=
  { mesh_points := squareVertices
    freeboundary := [(0, 1), (1, 2), (2, 3), (3, 0)]
    free_boundary_points := squareVertices
    n_boundaries := 1
    n_nodes_per_boundary := [5] }

/-! ## The voltage pipeline: egm masking, amplitudes, interpolation -/

/-- NaN-propagating maximum (`np.amax` over values that may be NaN). -/
def nanMax : Option ℚ → Option ℚ → Option ℚ
  | some a, some b => some (max a b)
  | _, _ => none

/-- NaN-propagating minimum. -/
def nanMin : Option ℚ → Option ℚ → Option ℚ
  | some a, some b => some (min a b)
  | _, _ => none

/-- NaN-propagating subtraction (`np.subtract`). -/
def nanSub : Option ℚ → Option ℚ → Option ℚ
  | some a, some b => some (a - b)
  | _, _ => none

/-- `np.amax(a=i_egm, axis=1)` on one row: NaN if the row contains NaN
(or is empty), else the maximum. -/
def rowMax : List (Option ℚ) → Option ℚ
  | [] => none
  | h :: t => t.foldl nanMax h

/-- `np.amin(a=i_egm, axis=1)` on one row. -/
def rowMin : List (Option ℚ) → Option ℚ
  | [] => none
  | h :: t => t.foldl nanMin h

/-- `i_egm[~i_vp_egm] = np.nan`: `i_vp` is repeated across each row, so a
mapping point flagged outside the window of interest has its whole row
overwritten with NaN. -/
def maskRows (m : List (List (Option ℚ))) (i_vp : List Bool) :
    List (List (Option ℚ)) :=
  (m.zip i_vp).map (fun p => if p.2 then p.1 else p.1.map (fun _ => none))

/-- The stored `mesh_case.electric["egm"]` array as it is *after*
`get_voltage_electroanatomic` has run.  `i_egm = mesh_case.electric["egm"].T`
is a numpy view, so `i_egm[~i_vp_egm] = np.nan` writes through it into
the stored array: the row of the view for an out-of-window mapping point
is a column of the stored array. -/
def egm_after_call (egm : List (List (Option ℚ))) (i_vp : List Bool) :
    List (List (Option ℚ)) :=
  (maskRows egm.transpose i_vp).transpose

/-- `amplitude_volt = np.subtract(max_volt, min_volt)`: per mapping point,
the difference of the row maximum and row minimum of the masked
transposed egm array. -/
def amplitude_volt (i_egm_masked : List (List (Option ℚ))) : List (Option ℚ) :=
  i_egm_masked.map (fun r => nanSub (rowMax r) (rowMin r))

/-- `locations[~i_vp_locations] = np.nan`: electrode location rows flagged
outside the window become all-NaN rows, modelled as `none`. -/
def maskedLocations {α : Type} (locations : List α) (i_vp : List Bool) :
    List (Option α) :=
  (locations.zip i_vp).map (fun p => if p.2 then some p.1 else none)

/-- `i_nan = np.isnan(temp_data); temp_data = temp_data[~i_nan];
temp_coords = temp_coords[~i_nan]`: the (coordinate, amplitude) samples
that remain and are passed to the interpolator's fit. -/
def temp_pairs {α : Type} (i_egm : List (List (Option ℚ))) (i_vp : List Bool)
    (locations : List α) : List (Option α × ℚ) :=
  ((maskedLocations locations i_vp).zip
      (amplitude_volt (maskRows i_egm i_vp))).filterMap
    (fun p => p.2.map (fun d => (p.1, d)))

/-- The sample a row contributes to the fitted set, according to its
window-of-interest flag: a valid sample keeps its original location and
the amplitude of its original electrogram row; an invalid one is kept
out. -/
def keptSample {α : Type} (tr : List (Option ℚ) × (α × Bool)) :
    Option (Option α × ℚ) :=
  if tr.2.2 then
    some ((some tr.2.1 : Option α), (nanSub (rowMax tr.1) (rowMin tr.1)).getD 0)
  else none

/-! ## The interpolator (modelled from the spec) and the pipeline -/

/-- A 3-D point with rational coordinates (electrode/vertex locations as
seen by the interpolator model). -/
abbrev PointQ := ℚ × ℚ × ℚ

/-- Squared Euclidean distance between two rational points. -/
def distSq (a b : PointQ) : ℚ :=
  (b.1 - a.1) ^ 2 + (b.2.1 - a.2.1) ^ 2 + (b.2.2 - a.2.2) ^ 2

/-- The interpolator's error taxonomy (spec section 7). -/
inductive InterpError where
  | insufficientSamples
  deriving DecidableEq

/-- Modelled from the spec: the minimum number of valid samples required
by radial-basis interpolation in 3-D (spec section 4.4: "fewer than 4
samples for RBF in 3-D"). -/
def rbfMinSamples : ℕ := 4

/-- Modelled from the spec: evaluation of `OpenEPDataInterpolator` at one
target vertex.  `OpenEPDataInterpolator` lives in `openep.case_routines`,
which is not among the sources (only its caller
`get_voltage_electroanatomic` is).  Per spec section 4.4, a target vertex
farther than the distance threshold from every source sample is forced to
not-a-number (`none`) rather than extrapolated.  Distances are compared
through their squares (both sides are non-negative, so
`distance ≤ threshold` iff `distance² ≤ threshold²`); a sample whose
coordinates were overwritten with NaN (`none`) compares as NaN and is
never within the threshold, matching numpy comparison semantics.  The
fitted model's value at an in-range vertex is the parameter `fit`: the
spec leaves the kernel configurable and no claim constrains the value. -/
def interpolateAt (samples : List (Option PointQ × ℚ)) (distanceThreshold : ℚ)
    (fit : List (Option PointQ × ℚ) → PointQ → ℚ) (t : PointQ) : Option ℚ :=
  if samples.any (fun s => s.1.any (fun c => distSq c t ≤ distanceThreshold ^ 2)) then
    some (fit samples t)
  else none

/-- Modelled from the spec: `OpenEPDataInterpolator.interpolate(x0, d0, x1)`.
Fails with `InsufficientSamplesError` when fewer valid samples remain
after masking than the minimum required by the method (spec sections 4.4
and 7); otherwise returns one optional value per target vertex, NaN
(`none`) for vertices beyond the distance threshold from every sample. -/
def interpolate (samples : List (Option PointQ × ℚ)) (distanceThreshold : ℚ)
    (fit : List (Option PointQ × ℚ) → PointQ → ℚ) (targets : List PointQ) :
    Except InterpError (List (Option ℚ)) :=
  if samples.length < rbfMinSamples then .error .insufficientSamples
  else .ok (targets.map (interpolateAt samples distanceThreshold fit))

/-- `get_voltage_electroanatomic(mesh_case)`: transpose the stored egm
array, mask egm rows and electrode locations by the window-of-interest
flags (writing the egm NaNs through the transpose view into the stored
array), compute per-point voltage amplitudes, drop the NaN samples, and
interpolate the amplitudes onto the mesh nodes with `distance_thresh = 10`.
Returns the stored egm array as it is after the call together with the
interpolation result. -/
def get_voltage_electroanatomic
    (egm : List (List (Option ℚ))) (i_vp : List Bool)
    (locations : List PointQ) (nodes : List PointQ)
    (fit : List (Option PointQ × ℚ) → PointQ → ℚ) :
    List (List (Option ℚ)) × Except InterpError (List (Option ℚ)) :=
  (egm_after_call egm i_vp,
    interpolate (temp_pairs egm.transpose i_vp locations) 10 fit nodes)

/-- Witness input for C6/C9: a 1-by-2 electrogram matrix with the second
mapping point outside the window of interest. -/
def egmEx : List (List (Option ℚ)) := [[some 1, some 2]]

/-- Witness samples for C7: four valid unit-square samples far from the
target vertex (5,5,5). -/
def farSamples : List (Option PointQ × ℚ) :=
  [(some (0, 0, 0), 0), (some (1, 0, 0), 0),
   (some (0, 1, 0), 0), (some (1, 1, 0), 0)]

/-- Witness input for C9: one time sample, three mapping points, all
valid — only 3 valid samples remain, fewer than the 4 RBF needs. -/
def egmEx3 : List (List (Option ℚ)) := [[some 1, some 2, some 3]]

/-! ## `get_anatomical_structures` and the unbound name `line_length` -/

/-- The names bound at module level in `openep/draw_routines.py`: the
imports (`dataclass`, `List`, `np`, `tm`, `pv`, `case_routines`), the two
module globals and the module's own definitions. -/
def module_level_names : List String :=
  ["dataclass", "List", "np", "tm", "pv", "case_routines", "plot", "volt",
   "_create_trimesh", "_create_pymesh", "FreeBoundary", "get_freeboundaries",
   "get_freeboundary_points", "draw_free_boundaries",
   "get_anatomical_structures", "draw_map", "get_voltage_electroanatomic"]

/-- The Python built-in names referred to anywhere in the module. -/
def python_builtins : List String :=
  ["range", "len", "print", "round", "list", "enumerate", "float", "zip",
   "dict", "int", "bool"]

/-- Resolution of a bare name inside the body of
`get_anatomical_structures` (which binds no local of that name): the name
resolves iff it is bound at module level or is a builtin; otherwise
evaluating it raises `NameError`. -/
def resolvesName (n : String) : Bool :=
  n ∈ module_level_names || n ∈ python_builtins

/-- A Python runtime error. -/
inductive PyError where
  | nameError (n : String)
  deriving DecidableEq

/-- The per-structure loop of `get_anatomical_structures` (lines
336-356): each iteration builds the fan Trirep of the boundary and then
evaluates `lineLen = line_length(coords)`; evaluating the bare name
`line_length` raises `NameError` if it does not resolve, aborting the
whole call before its `return` statement. -/
noncomputable def anatomical_loop :
    List (List Point3) → Except PyError (List ℝ)
  | [] => .ok []
  | coords :: rest =>
      if resolvesName ("line_length") then
        match anatomical_loop rest with
        | .ok tail => .ok (line_length coords :: tail)
        | .error e => .error e
      else .error (.nameError ("line_length"))

/-- `get_anatomical_structures(mesh_case, plot=False)`: collect the
freeboundary point lists from the mesh outline, run the per-structure
loop, and return the points with the perimeter lengths. -/
noncomputable def get_anatomical_structures
    (freeboundary_points : List (List Point3)) :
    Except PyError (List (List Point3) × List ℝ) :=
  match anatomical_loop freeboundary_points with
  | .ok lens => .ok (freeboundary_points, lens)
  | .error e => .error e

/-! ## Theorems -/

theorem consecPairs_eq_zip_tail (l : List α) : consecPairs l = l.zip l.tail := by
  match l with
  | [] => rfl
  | [a] => rfl
  | a :: b :: rest =>
      simp only [consecPairs, List.tail, List.zip_cons_cons]
      exact congrArg _ (consecPairs_eq_zip_tail (b :: rest))

theorem dropAt_nil_bad (l : List α) : dropAt l [] = l := by
  induction l with
  | nil => rfl
  | cons a t ih => simp [dropAt, ih]

theorem dropAt_append_of_le (xs ys : List α) (bad : List ℕ)
    (h : ∀ b ∈ bad, xs.length ≤ b) :
    dropAt (xs ++ ys) bad = xs ++ dropAt ys (bad.map (· - xs.length)) := by
  induction xs generalizing bad with
  | nil => simp
  | cons a t ih =>
      have h0 : 0 ∉ bad := fun hmem => by
        have := h 0 hmem
        simp at this
      have hfil : bad.filter (0 < ·) = bad := by
        apply List.filter_eq_self.mpr
        intro b hb
        have := h b hb
        simp only [List.length_cons] at this
        exact decide_eq_true (Nat.lt_of_lt_of_le (Nat.succ_pos _) this)
      simp only [List.cons_append, dropAt, if_neg h0, hfil, List.append_eq]
      rw [ih (bad.map (· - 1)) ?hle]
      · simp only [List.map_map, List.cons_append, List.nil_append,
          List.append_cancel_left_eq, List.length_cons]
        congr 1
        congr 1
        congr 1
        apply List.map_congr_left
        intro b hb
        have := h b hb
        simp only [List.length_cons] at this
        simp only [Function.comp_apply]
        omega
      · intro b hb
        rcases List.mem_map.mp hb with ⟨c, hc, rfl⟩
        have := h c hc
        simp only [List.length_cons] at this
        omega

theorem dist3_comm (a b : Point3) : dist3 a b = dist3 b a := by
  unfold dist3
  ring_nf

theorem boundaryEdges_nodup (faces : List (ℕ × ℕ × ℕ)) :
    (boundaryEdges faces).Nodup :=
  (List.nodup_dedup _).filter _

/-! ## Structure lemmas about `consecPairs`, `cumsum` and the slicing -/

theorem consecPairs_length (l : List α) : (consecPairs l).length = l.length - 1 := by
  match l with
  | [] => rfl
  | [a] => rfl
  | a :: b :: rest =>
      simp only [consecPairs, List.length_cons]
      rw [consecPairs_length (b :: rest)]
      simp

theorem consecPairs_map_fst (l : List α) :
    (consecPairs l).map Prod.fst = l.dropLast := by
  match l with
  | [] => rfl
  | [a] => rfl
  | a :: b :: rest =>
      simp only [consecPairs, List.map_cons]
      rw [consecPairs_map_fst (b :: rest)]
      rfl

theorem consecPairs_chain (l : List α) :
    List.Chain' (fun p q => p.2 = q.1) (consecPairs l) := by
  match l with
  | [] => simp [consecPairs]
  | [a] => simp [consecPairs]
  | [a, b] => simp [consecPairs]
  | a :: b :: c :: rest =>
      have ih := consecPairs_chain (b :: c :: rest)
      simp only [consecPairs] at ih ⊢
      exact List.Chain'.cons rfl ih

theorem consecPairs_head_fst (l : List α) (h : 2 ≤ l.length) :
    (consecPairs l).head?.map Prod.fst = l.head? := by
  match l with
  | [] => simp at h
  | [a] => simp at h
  | a :: b :: rest => simp [consecPairs]

theorem consecPairs_getLast_snd (l : List α) (h : 2 ≤ l.length) :
    (consecPairs l).getLast?.map Prod.snd = l.getLast? := by
  match l with
  | [] => simp at h
  | [a] => simp at h
  | [a, b] => simp [consecPairs]
  | a :: b :: c :: rest =>
      have ih := consecPairs_getLast_snd (b :: c :: rest) (by simp)
      show (((a, b) :: (b, c) :: consecPairs (c :: rest)).getLast?).map Prod.snd
          = (a :: b :: c :: rest).getLast?
      rw [List.getLast?_cons_cons, List.getLast?_cons_cons]
      exact ih

theorem consecPairs_append (xs : List α) (y : α) (ys : List α) (hxs : xs ≠ []) :
    consecPairs (xs ++ y :: ys) =
      consecPairs xs ++ (xs.getLast hxs, y) :: consecPairs (y :: ys) := by
  match xs with
  | [] => cases hxs rfl
  | [a] => simp [consecPairs]
  | a :: b :: t =>
      have h' : (b :: t : List α) ≠ [] := by simp
      have ih := consecPairs_append (b :: t) y ys h'
      have hunf : consecPairs ((a :: b :: t) ++ y :: ys) =
          (a, b) :: consecPairs ((b :: t) ++ y :: ys) := rfl
      rw [hunf, ih]
      rw [show (a :: b :: t).getLast hxs = (b :: t).getLast h' from
        List.getLast_cons h']
      rfl

theorem cumsum_mem_pos (l : List ℕ) :
    (∀ a ∈ l, 0 < a) → ∀ x ∈ cumsum l, 0 < x := by
  induction l with
  | nil => intro _ x hx; simp [cumsum] at hx
  | cons a t ih =>
      intro hl x hx
      simp only [cumsum, List.mem_cons, List.mem_map] at hx
      rcases hx with hxa | ⟨s, _, rfl⟩
      · have := hl a (by simp)
        omega
      · have := hl a (by simp)
        omega

/-- Dropping the cross-boundary pairs (positions `cumsum(n_nodes[:-1]) - 1`)
from the consecutive pairs of the concatenated node arrays recovers
exactly the per-boundary pair blocks. -/
theorem dropAt_flatten_consecPairs (es : List (List ℕ))
    (h2 : ∀ e ∈ es, 2 ≤ e.length) :
    dropAt (consecPairs es.flatten)
        ((cumsum ((es.map List.length).dropLast)).map (· - 1)) =
      (es.map consecPairs).flatten := by
  induction es with
  | nil => simp [consecPairs, dropAt]
  | cons e rest ih =>
      rcases rest with _ | ⟨r, rest'⟩
      · simp [cumsum, dropAt_nil_bad]
      · have hlen_e : 2 ≤ e.length := h2 e (by simp)
        have he : e ≠ [] := by
          intro hh
          rw [hh] at hlen_e
          simp at hlen_e
        have hr : (r : List ℕ) ≠ [] := by
          have h' := h2 r (by simp)
          intro hh
          rw [hh] at h'
          simp at h'
        have hJ : ((r :: rest').flatten : List ℕ) ≠ [] := by
          simp only [List.flatten_cons]
          intro hh
          exact hr (List.nil_eq_append_iff.mp hh.symm).1
        obtain ⟨y, J', hJeq⟩ := List.exists_cons_of_ne_nil hJ
        have hflat : ((e :: r :: rest').flatten : List ℕ) = e ++ y :: J' := by
          rw [List.flatten_cons, hJeq]
        have hsplit := consecPairs_append e y J' he
        have hbadshape :
            ((cumsum (((e :: r :: rest').map List.length).dropLast)).map (· - 1))
              = (e.length - 1) ::
                ((cumsum (((r :: rest').map List.length).dropLast)).map
                  (fun s => e.length + s - 1)) := by
          simp only [List.map_cons, List.dropLast_cons₂, cumsum, List.map_map]
          congr 1
        rw [hflat, hsplit, hbadshape]
        rw [dropAt_append_of_le _ _ _ ?hge]
        case hge =>
          intro b hb
          rw [consecPairs_length]
          rcases List.mem_cons.mp hb with rfl | hb'
          · exact Nat.le_refl _
          · rcases List.mem_map.mp hb' with ⟨s, _, rfl⟩
            omega
        have hmapshift :
            ((e.length - 1) ::
              ((cumsum (((r :: rest').map List.length).dropLast)).map
                (fun s => e.length + s - 1))).map (· - (consecPairs e).length)
              = 0 :: cumsum (((r :: rest').map List.length).dropLast) := by
          rw [consecPairs_length, List.map_cons, List.map_map]
          congr 1
          · omega
          · have hpt : ∀ s ∈ cumsum (((r :: rest').map List.length).dropLast),
                ((fun b => b - (e.length - 1)) ∘ fun s => e.length + s - 1) s = id s := by
              intro s _
              simp only [Function.comp_apply, id]
              omega
            rw [List.map_congr_left hpt, List.map_id]
        rw [hmapshift]
        have hcumpos : ∀ x ∈ cumsum (((r :: rest').map List.length).dropLast), 0 < x := by
          apply cumsum_mem_pos
          intro a ha
          have ha' := List.mem_of_mem_dropLast ha
          rcases List.mem_map.mp ha' with ⟨ent, hent, rfl⟩
          have := h2 ent (List.mem_cons_of_mem _ hent)
          omega
        have hdropcons :
            dropAt (((e.getLast he, y) : ℕ × ℕ) :: consecPairs (y :: J'))
              (0 :: cumsum (((r :: rest').map List.length).dropLast))
              = dropAt (consecPairs (y :: J'))
                ((cumsum (((r :: rest').map List.length).dropLast)).map (· - 1)) := by
          rw [show dropAt (((e.getLast he, y) : ℕ × ℕ) :: consecPairs (y :: J'))
                (0 :: cumsum (((r :: rest').map List.length).dropLast))
              = (if 0 ∈ (0 :: cumsum (((r :: rest').map List.length).dropLast)) then
                  ([] : List (ℕ × ℕ)) else [(e.getLast he, y)]) ++
                dropAt (consecPairs (y :: J'))
                  (((0 :: cumsum (((r :: rest').map List.length).dropLast)).filter
                    (0 < ·)).map (· - 1)) from rfl]
          rw [if_pos (by simp)]
          rw [List.nil_append]
          congr 2
          rw [show (0 :: cumsum (((r :: rest').map List.length).dropLast)).filter (0 < ·)
              = (cumsum (((r :: rest').map List.length).dropLast)).filter (0 < ·) by simp]
          rw [List.filter_eq_self.mpr (fun b hb => decide_eq_true (hcumpos b hb))]
        rw [hdropcons]
        rw [← hJeq]
        rw [ih (fun ent hent => h2 ent (List.mem_cons_of_mem _ hent))]
        rfl

/-- Unfolding `zip(start_indices, stop_indices)` one boundary at a time:
the first boundary is sliced from `0` to `n - 1`, the remaining
boundaries' slice windows are shifted by `n - 1`. -/
theorem startStop_cons (n : ℕ) (ns : List ℕ) (h : ns ≠ []) :
    startStop (n :: ns) =
      (0, some (n - 1)) ::
        (startStop ns).map (Prod.map ((n - 1) + ·) (Option.map ((n - 1) + ·))) := by
  obtain ⟨m, ms, rfl⟩ := List.exists_cons_of_ne_nil h
  show ((0 : ℕ) :: cumsum (((n :: m :: ms).dropLast).map (· - 1))).zip
      ((((0 : ℕ) :: cumsum (((n :: m :: ms).dropLast).map (· - 1))).tail.map some) ++ [none]) = _
  rw [List.dropLast_cons₂, List.map_cons]
  rw [show cumsum ((n - 1) :: ((m :: ms).dropLast).map (· - 1))
        = (n - 1) :: (cumsum (((m :: ms).dropLast).map (· - 1))).map ((n - 1) + ·) from rfl]
  show ((0 : ℕ) :: (n - 1) :: (cumsum (((m :: ms).dropLast).map (· - 1))).map ((n - 1) + ·)).zip
      ((((n - 1) :: (cumsum (((m :: ms).dropLast).map (· - 1))).map ((n - 1) + ·)).map some) ++ [none])
      = _
  rw [List.map_cons, List.cons_append, List.zip_cons_cons]
  congr 1
  have hzm := List.zip_map ((n - 1) + ·) (Option.map ((n - 1) + ·))
    ((0 : ℕ) :: cumsum (((m :: ms).dropLast).map (· - 1)))
    (((cumsum (((m :: ms).dropLast).map (· - 1))).map some) ++ [none])
  rw [startStop, start_indices, stop_indices, start_indices]
  rw [show (((0 : ℕ) :: cumsum (((m :: ms).dropLast).map (· - 1))).tail.map some) ++ [none]
        = ((cumsum (((m :: ms).dropLast).map (· - 1))).map some) ++ [none] from rfl]
  rw [← hzm]
  congr 1
  rw [List.map_append, List.map_map, List.map_map]
  rfl

/-- Slicing the concatenation of blocks with the `start_indices` and
`stop_indices` derived from per-block node counts (`block length + 1`)
recovers the blocks. -/
theorem slices_flatten (blocks : List (List α)) (h : blocks ≠ []) :
    (startStop (blocks.map (fun b => b.length + 1))).map
      (fun p => pySlice blocks.flatten p.1 p.2) = blocks := by
  induction blocks with
  | nil => cases h rfl
  | cons b rest ih =>
      rcases rest with _ | ⟨r, rest'⟩
      · simp [startStop, start_indices, stop_indices, cumsum, pySlice]
      · rw [List.map_cons, startStop_cons _ _ (by simp)]
        rw [List.map_cons]
        congr 1
        · show pySlice ((b :: r :: rest').flatten) 0 (some (b.length + 1 - 1)) = b
          rw [show b.length + 1 - 1 = b.length from rfl]
          show (((b ++ (r :: rest').flatten).take b.length)).drop 0 = b
          rw [List.take_left, List.drop_zero]
        · rw [List.map_map]
          have hpt : ∀ p : ℕ × Option ℕ,
              pySlice ((b :: r :: rest').flatten)
                  (Prod.map ((b.length + 1 - 1) + ·) (Option.map ((b.length + 1 - 1) + ·)) p).1
                  (Prod.map ((b.length + 1 - 1) + ·) (Option.map ((b.length + 1 - 1) + ·)) p).2
                = pySlice ((r :: rest').flatten) p.1 p.2 := by
            intro p
            rcases p with ⟨s, _ | t⟩
            · show (b ++ (r :: rest').flatten).drop (b.length + s) = _
              rw [List.drop_append]
              rfl
            · show ((b ++ (r :: rest').flatten).take (b.length + t)).drop (b.length + s) = _
              rw [List.take_append, List.drop_append]
              rfl
          calc (startStop ((r :: rest').map (fun b => b.length + 1))).map
                (fun p => pySlice ((b :: r :: rest').flatten)
                  (Prod.map ((b.length + 1 - 1) + ·) (Option.map ((b.length + 1 - 1) + ·)) p).1
                  (Prod.map ((b.length + 1 - 1) + ·) (Option.map ((b.length + 1 - 1) + ·)) p).2)
              = (startStop ((r :: rest').map (fun b => b.length + 1))).map
                (fun p => pySlice ((r :: rest').flatten) p.1 p.2) := by
                apply List.map_congr_left
                intro p _
                exact hpt p
            _ = r :: rest' := ih (by simp)

/-- `get_freeboundaries` on a non-empty entity list: the returned
`freeboundary` array is exactly the concatenation of each boundary's
consecutive node pairs (the cross-boundary pairs having been dropped). -/
theorem get_freeboundaries_ok (vertices : List Point3) (entities : List (List ℕ))
    (hne : entities ≠ []) (h2 : ∀ e ∈ entities, 2 ≤ e.length) :
    get_freeboundaries vertices entities = .ok
      { mesh_points := vertices
        freeboundary := (entities.map consecPairs).flatten
        free_boundary_points := ((entities.map consecPairs).flatten).map
          (fun e => vertices.getD e.1 (0, 0, 0))
        n_boundaries := entities.length
        n_nodes_per_boundary := entities.map List.length } := by
  have hfb : dropAt (entities.flatten.zip entities.flatten.tail)
      ((cumsum ((entities.map List.length).dropLast)).map (· - 1))
      = (entities.map consecPairs).flatten := by
    rw [← consecPairs_eq_zip_tail]
    exact dropAt_flatten_consecPairs entities h2
  have hnotempty : entities.isEmpty = false := by
    cases entities with
    | nil => cases hne rfl
    | cons a t => rfl
  simp only [get_freeboundaries, hnotempty, Bool.false_eq_true, if_false, hfb]

/-- C3: For every valid open mesh (2-manifold with boundary, so that
`trimesh.outline()` delivers its contract `OutlineOk`), the loops produced
by `get_freeboundaries` and split by `FreeBoundary.separate_boundaries`
partition the set of boundary edges exactly: the undirected edges of all
loops together are a permutation of the boundary edges (each boundary
edge in exactly one loop), the loops' edge sets are pairwise disjoint,
and every loop is a simple cycle of length at least 3. -/
theorem C3_boundary_loops_partition (vertices : List Point3)
    (faces : List (ℕ × ℕ × ℕ)) (entities : List (List ℕ))
    (hopen : boundaryEdges faces ≠ [])
    (hok : OutlineOk faces entities) :
    ∃ fb : FreeBoundary,
      get_freeboundaries vertices entities = .ok fb ∧
      List.Perm (((separate_boundaries fb).map (fun l => l.map sortEdge)).flatten)
        (boundaryEdges faces) ∧
      (∀ loop ∈ separate_boundaries fb, IsSimpleCycle loop) ∧
      ((separate_boundaries fb).map (fun l => l.map sortEdge)).Pairwise
        List.Disjoint := by
  have hok1 := hok.1
  have hperm := hok.2
  have hne : entities ≠ [] := by
    intro hnil
    rw [hnil] at hperm
    simp only [List.map_nil, List.flatten_nil] at hperm
    exact hopen (hperm.symm.eq_nil)
  have h2 : ∀ e ∈ entities, 2 ≤ e.length := by
    intro e he
    have := (hok1 e he).1
    omega
  have hsizes : entities.map List.length
      = (entities.map consecPairs).map (fun b => b.length + 1) := by
    rw [List.map_map]
    apply List.map_congr_left
    intro e he
    have := h2 e he
    simp only [Function.comp_apply, consecPairs_length]
    omega
  have hsep : separate_boundaries
      { mesh_points := vertices
        freeboundary := (entities.map consecPairs).flatten
        free_boundary_points := ((entities.map consecPairs).flatten).map
          (fun e => vertices.getD e.1 (0, 0, 0))
        n_boundaries := entities.length
        n_nodes_per_boundary := entities.map List.length }
      = entities.map consecPairs := by
    show (startStop (entities.map List.length)).map
        (fun p => pySlice ((entities.map consecPairs).flatten) p.1 p.2)
      = entities.map consecPairs
    rw [hsizes]
    exact slices_flatten _ (by simpa using hne)
  refine ⟨_, get_freeboundaries_ok vertices entities hne h2, ?_, ?_, ?_⟩
  · rw [hsep, List.map_map]
    exact hperm
  · intro loop hl
    rw [hsep] at hl
    obtain ⟨e, he, rfl⟩ := List.mem_map.mp hl
    obtain ⟨hlen, hclosed, hnodup⟩ := hok1 e he
    refine ⟨?_, ?_, consecPairs_chain e, ?_⟩
    · rw [consecPairs_length]
      omega
    · rw [consecPairs_map_fst]
      exact hnodup
    · rw [consecPairs_getLast_snd e (by omega), consecPairs_head_fst e (by omega),
        hclosed]
  · have hnd : (((entities.map consecPairs).map
        (fun l => l.map sortEdge)).flatten).Nodup := by
      rw [List.map_map]
      exact (hperm.nodup_iff).mpr (boundaryEdges_nodup faces)
    rw [hsep]
    exact (List.nodup_flatten.mp hnd).2

/-- Witness for C3 at a concrete open mesh: the two-triangle square.  Its
boundary-edge list is non-empty, the outline contract holds for the single
4-vertex entity, and the theorem's conclusion is obtained by applying it. -/
theorem C3_boundary_loops_partition_witness :
    boundaryEdges squareFaces ≠ [] ∧ OutlineOk squareFaces squareEntities ∧
    ∃ fb : FreeBoundary,
      get_freeboundaries squareVertices squareEntities = .ok fb ∧
      List.Perm (((separate_boundaries fb).map (fun l => l.map sortEdge)).flatten)
        (boundaryEdges squareFaces) ∧
      (∀ loop ∈ separate_boundaries fb, IsSimpleCycle loop) ∧
      ((separate_boundaries fb).map (fun l => l.map sortEdge)).Pairwise
        List.Disjoint :=
  ⟨by decide, by decide,
    C3_boundary_loops_partition squareVertices squareFaces squareEntities
      (by decide) (by decide)⟩

/-- C2 counterexample: the tetrahedron is a closed 2-manifold mesh (its
boundary-edge list is empty, so the trimesh outline has no entities), yet
`get_freeboundaries` raises `ValueError` (from `np.concatenate` on the
empty list of entity point arrays) instead of returning a result with
zero loops. -/
theorem C2_counterexample_closed_mesh_fails :
    boundaryEdges tetFaces = [] ∧
    get_freeboundaries tetVertices ([] : List (List ℕ)) =
      .error NumpyError.concatenateEmpty := by
  constructor
  · decide
  · rfl

/-- C2 (amended): for every closed 2-manifold mesh — no boundary edges,
hence no outline entities under the trimesh contract — the extractor
`get_freeboundaries` raises `ValueError` from `np.concatenate` on the
empty sequence of boundary node arrays; it fails rather than returning
`n_boundaries = 0` with an empty edge-pair array. -/
theorem C2_closed_mesh_raises (vertices : List Point3)
    (faces : List (ℕ × ℕ × ℕ)) (entities : List (List ℕ))
    (hclosed : boundaryEdges faces = [])
    (hok : OutlineOk faces entities) :
    get_freeboundaries vertices entities = .error NumpyError.concatenateEmpty := by
  have hnil : entities = [] := by
    rcases entities with _ | ⟨e, rest⟩
    · rfl
    · exfalso
      have hperm := hok.2
      rw [hclosed] at hperm
      have hflat := hperm.eq_nil
      simp only [List.map_cons, List.flatten_cons] at hflat
      have h1 := (List.nil_eq_append_iff.mp hflat.symm).1
      have hlen := (hok.1 e (by simp)).1
      have hlm : ((consecPairs e).map sortEdge).length = e.length - 1 := by
        rw [List.length_map, consecPairs_length]
      rw [h1] at hlm
      simp only [List.length_nil] at hlm
      omega
  rw [hnil]
  rfl

/-- Witness for the amended C2 at the concrete closed tetrahedron mesh. -/
theorem C2_closed_mesh_raises_witness :
    (boundaryEdges tetFaces = [] ∧ OutlineOk tetFaces []) ∧
    get_freeboundaries tetVertices ([] : List (List ℕ)) =
      .error NumpyError.concatenateEmpty :=
  ⟨⟨by decide, by decide⟩,
    C2_closed_mesh_raises tetVertices tetFaces [] (by decide) (by decide)⟩

theorem line_length_append_last (l : List Point3) (x : Point3) :
    line_length (l ++ [x])
      = line_length l + (l.getLast?.elim 0 (fun y => dist3 y x)) := by
  match l with
  | [] => simp [line_length]
  | [a] =>
      show dist3 a x + line_length [x] = line_length [a] + dist3 a x
      show dist3 a x + 0 = 0 + dist3 a x
      ring
  | a :: b :: t =>
      have ih := line_length_append_last (b :: t) x
      show dist3 a b + line_length ((b :: t) ++ [x]) = _
      rw [ih, List.getLast?_cons_cons]
      show _ = dist3 a b + line_length (b :: t) + _
      ring

/-- C8: the length computed by `FreeBoundary._line_length` (used by
`calculate_lengths` on each boundary's ordered point sequence) is
invariant under reversing the traversal direction of the sequence. -/
theorem C8_line_length_reverse_invariant (pts : List Point3) :
    line_length pts.reverse = line_length pts := by
  induction pts with
  | nil => rfl
  | cons a t ih =>
      rw [List.reverse_cons, line_length_append_last, ih, List.getLast?_reverse]
      cases t with
      | nil =>
          show line_length [a] + Option.elim none 0 (fun y => dist3 y a)
            = line_length [a]
          show (0 : ℝ) + 0 = 0
          ring
      | cons b t' =>
          show line_length (b :: t') + Option.elim (some b) 0 (fun y => dist3 y a)
            = dist3 a b + line_length (b :: t')
          show line_length (b :: t') + dist3 b a = dist3 a b + line_length (b :: t')
          rw [dist3_comm]
          ring

/-- C1 is a code bug: on the triangular boundary loop with points
(0,0,0), (3,4,0), (6,0,0) — produced by `get_freeboundaries` from the
trimesh entity `[0, 1, 2, 0]` — `calculate_lengths` returns 10, the sum
of the two `np.diff` segments only, whereas the perimeter demanded by the
claim (and by the docstring, "the length of the perimeter of each free
boundary") includes the wrap-around closing segment of length 6 and is
16.  `_line_length` never adds the segment from the last point back to
the first. -/
theorem C1_lengths_omit_closing_segment :
    get_freeboundaries triLoopPoints [[0, 1, 2, 0]] = .ok triFB ∧
    calculate_lengths triFB = [10] ∧
    spec_loop_perimeter triFB.free_boundary_points = 16 ∧ (10 : ℝ) ≠ 16 := by
  have d01 : dist3 ((0 : ℝ), (0 : ℝ), (0 : ℝ)) ((3 : ℝ), (4 : ℝ), (0 : ℝ)) = 5 := by
    show Real.sqrt (((3 : ℝ) - 0) ^ 2 + ((4 : ℝ) - 0) ^ 2 + ((0 : ℝ) - 0) ^ 2) = 5
    rw [show ((3 : ℝ) - 0) ^ 2 + ((4 : ℝ) - 0) ^ 2 + ((0 : ℝ) - 0) ^ 2
        = 5 ^ 2 by norm_num]
    exact Real.sqrt_sq (by norm_num)
  have d12 : dist3 ((3 : ℝ), (4 : ℝ), (0 : ℝ)) ((6 : ℝ), (0 : ℝ), (0 : ℝ)) = 5 := by
    show Real.sqrt (((6 : ℝ) - 3) ^ 2 + ((0 : ℝ) - 4) ^ 2 + ((0 : ℝ) - 0) ^ 2) = 5
    rw [show ((6 : ℝ) - 3) ^ 2 + ((0 : ℝ) - 4) ^ 2 + ((0 : ℝ) - 0) ^ 2
        = 5 ^ 2 by norm_num]
    exact Real.sqrt_sq (by norm_num)
  have d20 : dist3 ((6 : ℝ), (0 : ℝ), (0 : ℝ)) ((0 : ℝ), (0 : ℝ), (0 : ℝ)) = 6 := by
    show Real.sqrt (((0 : ℝ) - 6) ^ 2 + ((0 : ℝ) - 0) ^ 2 + ((0 : ℝ) - 0) ^ 2) = 6
    rw [show ((0 : ℝ) - 6) ^ 2 + ((0 : ℝ) - 0) ^ 2 + ((0 : ℝ) - 0) ^ 2
        = 6 ^ 2 by norm_num]
    exact Real.sqrt_sq (by norm_num)
  refine ⟨rfl, ?_, ?_, by norm_num⟩
  · have hcl : calculate_lengths triFB
        = [dist3 ((0 : ℝ), (0 : ℝ), (0 : ℝ)) ((3 : ℝ), (4 : ℝ), (0 : ℝ)) +
            (dist3 ((3 : ℝ), (4 : ℝ), (0 : ℝ)) ((6 : ℝ), (0 : ℝ), (0 : ℝ)) + 0)] := rfl
    rw [hcl, d01, d12]
    norm_num
  · have hsp : spec_loop_perimeter triFB.free_boundary_points
        = dist3 ((0 : ℝ), (0 : ℝ), (0 : ℝ)) ((3 : ℝ), (4 : ℝ), (0 : ℝ)) +
            (dist3 ((3 : ℝ), (4 : ℝ), (0 : ℝ)) ((6 : ℝ), (0 : ℝ), (0 : ℝ)) + 0) +
            dist3 ((6 : ℝ), (0 : ℝ), (0 : ℝ)) ((0 : ℝ), (0 : ℝ), (0 : ℝ)) := rfl
    rw [hsp, d01, d12, d20]
    norm_num

theorem cross3_z0 (u v : Point3) (hu : u.2.2 = 0) (hv : v.2.2 = 0) :
    cross3 u v = (0, 0, u.1 * v.2.1 - u.2.1 * v.1) := by
  unfold cross3
  rw [hu, hv]
  norm_num

theorem norm3_001 (x : ℝ) : norm3 (0, 0, x) = |x| := by
  show Real.sqrt ((0 : ℝ) ^ 2 + (0 : ℝ) ^ 2 + x ^ 2) = |x|
  rw [show (0 : ℝ) ^ 2 + (0 : ℝ) ^ 2 + x ^ 2 = x ^ 2 by ring]
  exact Real.sqrt_sq_eq_abs x

theorem sub3_z0 (a b : Point3) (ha : a.2.2 = 0) (hb : b.2.2 = 0) :
    (sub3 a b).2.2 = 0 := by
  show b.2.2 - a.2.2 = 0
  rw [ha, hb]
  ring

theorem triangle_area_z0 (c p q : Point3) (hc : c.2.2 = 0) (hp : p.2.2 = 0)
    (hq : q.2.2 = 0) :
    triangle_area c p q
      = |(p.1 - c.1) * (q.2.1 - c.2.1) - (p.2.1 - c.2.1) * (q.1 - c.1)| / 2 := by
  unfold triangle_area
  rw [cross3_z0 _ _ (sub3_z0 c p hc hp) (sub3_z0 c q hc hq), norm3_001]
  rfl

theorem centroid_z0 (pts : List Point3) (hz : ∀ p ∈ pts, p.2.2 = 0) :
    (pts.map (fun p => p.2.2)).sum / (pts.length : ℝ) = 0 := by
  have hsum : (pts.map (fun p => p.2.2)).sum = 0 := by
    apply List.sum_eq_zero
    intro x hx
    rcases List.mem_map.mp hx with ⟨p, hp, rfl⟩
    exact hz p hp
  rw [hsum]
  simp

theorem sum_map_div_two (l : List ℝ) : (l.map (fun x => x / 2)).sum = l.sum / 2 := by
  induction l with
  | nil => simp
  | cons a t ih =>
      simp only [List.map_cons, List.sum_cons, ih]
      ring

/-- On a loop lying in the `z = 0` plane, the fan-triangulation area is the
half-sum of the absolute values of the signed doubled triangle areas. -/
theorem fan_area_plane (pts : List Point3) (hz : ∀ p ∈ pts, p.2.2 = 0) :
    fan_area pts = ((fanCross pts).map (fun x => |x|)).sum / 2 := by
  unfold fan_area fanCross
  rw [← sum_map_div_two, List.map_map, List.map_map]
  apply congrArg List.sum
  apply List.map_congr_left
  intro pr hpr
  obtain ⟨h1, h2⟩ := List.of_mem_zip hpr
  have hz1 := hz pr.1 h1
  have hz2 := hz pr.2 (List.mem_rotate.mp h2)
  have hzc : (centroid pts).2.2 = 0 := centroid_z0 pts hz
  show triangle_area (centroid pts) pr.1 pr.2
      = |(pr.1.1 - (centroid pts).1) * (pr.2.2.1 - (centroid pts).2.1)
          - (pr.1.2.1 - (centroid pts).2.1) * (pr.2.1 - (centroid pts).1)| / 2
  exact triangle_area_z0 _ _ _ hzc hz1 hz2

theorem sum_map_cr_split (l : List (Point3 × Point3)) (cx cy : ℝ) :
    (l.map (fun pr =>
        (pr.1.1 - cx) * (pr.2.2.1 - cy) - (pr.1.2.1 - cy) * (pr.2.1 - cx))).sum
      = (l.map (fun pr => pr.1.1 * pr.2.2.1 - pr.1.2.1 * pr.2.1)).sum
        - (l.map (fun pr => pr.1.1 * cy - pr.1.2.1 * cx)).sum
        + (l.map (fun pr => pr.2.1 * cy - pr.2.2.1 * cx)).sum := by
  induction l with
  | nil => simp
  | cons a t ih =>
      simp only [List.map_cons, List.sum_cons, ih]
      ring

theorem cyclePairs_sum_fst_cross (pts : List Point3) (cx cy : ℝ) :
    ((cyclePairs pts).map (fun pr => pr.1.1 * cy - pr.1.2.1 * cx)).sum
      = (pts.map (fun p => p.1 * cy - p.2.1 * cx)).sum := by
  unfold cyclePairs
  have hmm : (pts.zip (pts.rotate 1)).map
        (fun pr : Point3 × Point3 => pr.1.1 * cy - pr.1.2.1 * cx)
      = ((pts.zip (pts.rotate 1)).map Prod.fst).map
        (fun p => p.1 * cy - p.2.1 * cx) := by
    rw [List.map_map]
    rfl
  rw [hmm, List.map_fst_zip _ _ (by rw [List.length_rotate])]

theorem cyclePairs_sum_snd_cross (pts : List Point3) (cx cy : ℝ) :
    ((cyclePairs pts).map (fun pr => pr.2.1 * cy - pr.2.2.1 * cx)).sum
      = (pts.map (fun p => p.1 * cy - p.2.1 * cx)).sum := by
  unfold cyclePairs
  have hmm : (pts.zip (pts.rotate 1)).map
        (fun pr : Point3 × Point3 => pr.2.1 * cy - pr.2.2.1 * cx)
      = ((pts.zip (pts.rotate 1)).map Prod.snd).map
        (fun p => p.1 * cy - p.2.1 * cx) := by
    rw [List.map_map]
    rfl
  rw [hmm, List.map_snd_zip _ _ (by rw [List.length_rotate])]
  exact List.Perm.sum_eq ((List.rotate_perm pts 1).map _)

/-- Telescoping: summing the signed doubled areas about the centroid gives
the same total as summing them about the origin (the shoelace terms). -/
theorem fanCross_sum (pts : List Point3) :
    (fanCross pts).sum
      = ((cyclePairs pts).map
          (fun pr => pr.1.1 * pr.2.2.1 - pr.1.2.1 * pr.2.1)).sum := by
  unfold fanCross
  rw [sum_map_cr_split, cyclePairs_sum_fst_cross, cyclePairs_sum_snd_cross]
  ring

theorem sum_abs_eq_abs_sum_of_nonneg (l : List ℝ) (h : ∀ x ∈ l, 0 ≤ x) :
    (l.map (fun x => |x|)).sum = |l.sum| := by
  induction l with
  | nil => simp
  | cons a t ih =>
      have ha := h a (by simp)
      have ht : ∀ x ∈ t, 0 ≤ x := fun x hx => h x (by simp [hx])
      have hts : 0 ≤ t.sum := List.sum_nonneg ht
      simp only [List.map_cons, List.sum_cons]
      rw [ih ht, abs_of_nonneg ha, abs_of_nonneg hts,
        abs_of_nonneg (add_nonneg ha hts)]

theorem list_sum_nonpos (l : List ℝ) : (∀ x ∈ l, x ≤ 0) → l.sum ≤ 0 := by
  induction l with
  | nil => intro _; simp
  | cons a t ih =>
      intro h
      have ha := h a (by simp)
      have ht := ih (fun x hx => h x (by simp [hx]))
      simp only [List.sum_cons]
      linarith

theorem sum_abs_eq_abs_sum_of_nonpos (l : List ℝ) (h : ∀ x ∈ l, x ≤ 0) :
    (l.map (fun x => |x|)).sum = |l.sum| := by
  induction l with
  | nil => simp
  | cons a t ih =>
      have ha := h a (by simp)
      have ht : ∀ x ∈ t, x ≤ 0 := fun x hx => h x (by simp [hx])
      have hts : t.sum ≤ 0 := list_sum_nonpos t ht
      simp only [List.map_cons, List.sum_cons]
      rw [ih ht, abs_of_nonpos ha, abs_of_nonpos hts,
        abs_of_nonpos (add_nonpos ha hts)]
      ring

theorem polygon_area_proj (pts : List Point3) :
    polygon_area_2d (pts.map (fun p => (p.1, p.2.1)))
      = |((cyclePairs pts).map
          (fun pr => pr.1.1 * pr.2.2.1 - pr.1.2.1 * pr.2.1)).sum| / 2 := by
  unfold polygon_area_2d cyclePairs
  have hrot : (pts.map (fun p => (p.1, p.2.1))).rotate 1
      = (pts.rotate 1).map (fun p => (p.1, p.2.1)) :=
    (List.map_rotate _ _ _).symm
  rw [hrot, List.zip_map, List.map_map]
  rfl

/-- C5: For every separated boundary loop whose points form a planar
convex polygon — planarity taken as lying in the `z = 0` plane, where the
standard shoelace formula is stated, and convexity captured by all signed
fan-triangle areas about the centroid having one sign (which holds for
every convex polygon, whichever way it is traversed) — the area computed
by `FreeBoundary.calculate_areas` (the fan triangulation from the
centroid, each cyclic point pair giving one triangle, the closing pair
included exactly once) equals the standard polygon-area formula. -/
theorem C5_fan_area_eq_polygon_area (fb : FreeBoundary) (b : List (ℕ × ℕ))
    (hb : b ∈ separate_boundaries fb)
    (hz : ∀ p ∈ loopPoints fb b, p.2.2 = 0)
    (hsign : (∀ q ∈ fanCross (loopPoints fb b), 0 ≤ q) ∨
      (∀ q ∈ fanCross (loopPoints fb b), q ≤ 0)) :
    fan_area (loopPoints fb b)
      = polygon_area_2d ((loopPoints fb b).map (fun p => (p.1, p.2.1))) ∧
    fan_area (loopPoints fb b) ∈ calculate_areas fb := by
  constructor
  · rw [fan_area_plane _ hz, polygon_area_proj, ← fanCross_sum]
    rcases hsign with hpos | hneg
    · rw [sum_abs_eq_abs_sum_of_nonneg _ hpos]
    · rw [sum_abs_eq_abs_sum_of_nonpos _ hneg]
  · exact List.mem_map_of_mem _ hb

/-- Witness for C5 at the unit-square boundary loop (a planar convex
polygon traversed counter-clockwise): the hypotheses hold concretely and
the fan-triangulation area equals the shoelace area. -/
theorem C5_fan_area_eq_polygon_area_witness :
    (([(0, 1), (1, 2), (2, 3), (3, 0)] : List (ℕ × ℕ))
        ∈ separate_boundaries squareFB) ∧
    (∀ p ∈ loopPoints squareFB [(0, 1), (1, 2), (2, 3), (3, 0)], p.2.2 = 0) ∧
    (fan_area (loopPoints squareFB [(0, 1), (1, 2), (2, 3), (3, 0)])
        = polygon_area_2d
          ((loopPoints squareFB [(0, 1), (1, 2), (2, 3), (3, 0)]).map
            (fun p => (p.1, p.2.1))) ∧
      fan_area (loopPoints squareFB [(0, 1), (1, 2), (2, 3), (3, 0)])
        ∈ calculate_areas squareFB) := by
  have hsepeq : separate_boundaries squareFB
      = [[(0, 1), (1, 2), (2, 3), (3, 0)]] := rfl
  have hb : ([(0, 1), (1, 2), (2, 3), (3, 0)] : List (ℕ × ℕ))
      ∈ separate_boundaries squareFB := by
    rw [hsepeq]
    simp
  have hlp : loopPoints squareFB [(0, 1), (1, 2), (2, 3), (3, 0)]
      = squareVertices := rfl
  have hz : ∀ p ∈ loopPoints squareFB [(0, 1), (1, 2), (2, 3), (3, 0)],
      p.2.2 = 0 := by
    intro p hp
    rw [hlp] at hp
    simp only [squareVertices, List.mem_cons, List.not_mem_nil, or_false] at hp
    rcases hp with rfl | rfl | rfl | rfl <;> norm_num
  have hcp : cyclePairs squareVertices
      = [(((0 : ℝ), (0 : ℝ), (0 : ℝ)), ((1 : ℝ), (0 : ℝ), (0 : ℝ))),
         (((1 : ℝ), (0 : ℝ), (0 : ℝ)), ((1 : ℝ), (1 : ℝ), (0 : ℝ))),
         (((1 : ℝ), (1 : ℝ), (0 : ℝ)), ((0 : ℝ), (1 : ℝ), (0 : ℝ))),
         (((0 : ℝ), (1 : ℝ), (0 : ℝ)), ((0 : ℝ), (0 : ℝ), (0 : ℝ)))] := rfl
  have hsign : (∀ q ∈ fanCross (loopPoints squareFB
        [(0, 1), (1, 2), (2, 3), (3, 0)]), 0 ≤ q) ∨
      (∀ q ∈ fanCross (loopPoints squareFB
        [(0, 1), (1, 2), (2, 3), (3, 0)]), q ≤ 0) := by
    left
    intro q hq
    rw [hlp] at hq
    unfold fanCross at hq
    rw [hcp] at hq
    simp only [List.map_cons, List.map_nil, List.mem_cons,
      List.not_mem_nil, or_false] at hq
    have hcx : (centroid squareVertices).1 = 1 / 2 := by
      show ((squareVertices.map (·.1)).sum : ℝ) / (squareVertices.length : ℝ)
          = 1 / 2
      norm_num [squareVertices]
    have hcy : (centroid squareVertices).2.1 = 1 / 2 := by
      show ((squareVertices.map (·.2.1)).sum : ℝ) / (squareVertices.length : ℝ)
          = 1 / 2
      norm_num [squareVertices]
    rcases hq with rfl | rfl | rfl | rfl <;>
      rw [hcx, hcy] <;> norm_num
  exact ⟨hb, hz, C5_fan_area_eq_polygon_area squareFB _ hb hz hsign⟩

theorem foldl_nanMax_ne_none (t : List (Option ℚ)) :
    ∀ acc : Option ℚ, acc ≠ none → (∀ x ∈ t, x ≠ none) →
      t.foldl nanMax acc ≠ none := by
  induction t with
  | nil => intro acc hacc _; exact hacc
  | cons x t ih =>
      intro acc hacc hall
      simp only [List.foldl_cons]
      apply ih
      · rcases acc with _ | a
        · cases hacc rfl
        · rcases hx : x with _ | b
          · exact absurd hx (hall x (by simp))
          · simp [nanMax]
      · intro y hy
        exact hall y (by simp [hy])

theorem foldl_nanMin_ne_none (t : List (Option ℚ)) :
    ∀ acc : Option ℚ, acc ≠ none → (∀ x ∈ t, x ≠ none) →
      t.foldl nanMin acc ≠ none := by
  induction t with
  | nil => intro acc hacc _; exact hacc
  | cons x t ih =>
      intro acc hacc hall
      simp only [List.foldl_cons]
      apply ih
      · rcases acc with _ | a
        · cases hacc rfl
        · rcases hx : x with _ | b
          · exact absurd hx (hall x (by simp))
          · simp [nanMin]
      · intro y hy
        exact hall y (by simp [hy])

theorem foldl_nanMax_none (t : List (Option ℚ)) :
    t.foldl nanMax none = none := by
  induction t with
  | nil => rfl
  | cons x t ih =>
      simp only [List.foldl_cons]
      rw [show nanMax none x = none by cases x <;> rfl]
      exact ih

/-- A valid (unmasked, all-recorded) electrogram row has a well-defined
amplitude. -/
theorem amplitude_isSome (r : List (Option ℚ)) (hne : r ≠ [])
    (hall : ∀ x ∈ r, x ≠ none) :
    ∃ a : ℚ, nanSub (rowMax r) (rowMin r) = some a := by
  obtain ⟨h, t, rfl⟩ := List.exists_cons_of_ne_nil hne
  have hmax : rowMax (h :: t) ≠ none :=
    foldl_nanMax_ne_none t h (hall h (by simp)) (fun x hx => hall x (by simp [hx]))
  have hmin : rowMin (h :: t) ≠ none :=
    foldl_nanMin_ne_none t h (hall h (by simp)) (fun x hx => hall x (by simp [hx]))
  rcases hmx : rowMax (h :: t) with _ | a
  · cases hmax hmx
  · rcases hmn : rowMin (h :: t) with _ | b
    · cases hmin hmn
    · exact ⟨a - b, rfl⟩

/-- Exclusion before fitting: the sample list passed to the interpolator
consists exactly of the window-of-interest-valid samples — each with its
original location and the amplitude of its original electrogram row — and
its length is the number of valid samples.  No invalid sample survives
the filtering. -/
theorem temp_pairs_spec {α : Type} (i_egm : List (List (Option ℚ))) :
    ∀ (i_vp : List Bool) (locations : List α),
      i_egm.length = i_vp.length → locations.length = i_vp.length →
      (∀ r ∈ i_egm, r ≠ [] ∧ ∀ x ∈ r, x ≠ none) →
      temp_pairs i_egm i_vp locations
        = (i_egm.zip (locations.zip i_vp)).filterMap keptSample ∧
      (temp_pairs i_egm i_vp locations).length = i_vp.count true := by
  induction i_egm with
  | nil =>
      intro i_vp locations h1 h2 _
      have hvp : i_vp = [] := by
        cases i_vp with
        | nil => rfl
        | cons v vs => simp at h1
      subst hvp
      have hloc : locations = [] := List.length_eq_zero.mp h2
      subst hloc
      exact ⟨rfl, rfl⟩
  | cons r rest ih =>
      intro i_vp locations h1 h2 hrows
      cases i_vp with
      | nil => simp at h1
      | cons v vs =>
          cases locations with
          | nil => simp at h2
          | cons l ls =>
              have h1' : rest.length = vs.length := by simpa using h1
              have h2' : ls.length = vs.length := by simpa using h2
              have hrows' : ∀ rr ∈ rest, rr ≠ [] ∧ ∀ x ∈ rr, x ≠ none :=
                fun rr hrr => hrows rr (by simp [hrr])
              obtain ⟨hihEq, hihLen⟩ := ih vs ls h1' h2' hrows'
              obtain ⟨hrne, hrall⟩ := hrows r (by simp)
              cases v with
              | true =>
                  obtain ⟨a, ha⟩ := amplitude_isSome r hrne hrall
                  have hstep : temp_pairs (r :: rest) (true :: vs) (l :: ls)
                      = ((some l : Option α), a) :: temp_pairs rest vs ls := by
                    unfold temp_pairs maskedLocations maskRows amplitude_volt
                    simp only [List.zip_cons_cons, List.map_cons, if_true,
                      List.filterMap_cons, ha, Option.map_some']
                  have hrhs : ((r :: rest).zip ((l :: ls).zip (true :: vs))).filterMap
                        (keptSample (α := α))
                      = ((some l : Option α),
                          (nanSub (rowMax r) (rowMin r)).getD 0) ::
                        (rest.zip (ls.zip vs)).filterMap keptSample := by
                    simp only [List.zip_cons_cons, List.filterMap_cons]
                    rfl
                  constructor
                  · rw [hstep, hihEq, hrhs, ha]
                    rfl
                  · rw [hstep]
                    simp only [List.length_cons, hihLen, List.count_cons]
                    simp
              | false =>
                  have hmasked : nanSub (rowMax (r.map (fun _ => (none : Option ℚ))))
                      (rowMin (r.map (fun _ => (none : Option ℚ)))) = none := by
                    obtain ⟨h0, t0, rfl⟩ := List.exists_cons_of_ne_nil hrne
                    have : rowMax ((h0 :: t0).map (fun _ => (none : Option ℚ)))
                        = none := by
                      show (t0.map (fun _ => (none : Option ℚ))).foldl nanMax none
                          = none
                      exact foldl_nanMax_none _
                    rw [show nanSub (rowMax ((h0 :: t0).map (fun _ => (none : Option ℚ))))
                          (rowMin ((h0 :: t0).map (fun _ => (none : Option ℚ))))
                        = nanSub none (rowMin ((h0 :: t0).map (fun _ => (none : Option ℚ))))
                      from by rw [this]]
                    rfl
                  have hstep : temp_pairs (r :: rest) (false :: vs) (l :: ls)
                      = temp_pairs rest vs ls := by
                    unfold temp_pairs maskedLocations maskRows amplitude_volt
                    simp only [List.zip_cons_cons, List.map_cons,
                      Bool.false_eq_true, if_false, List.filterMap_cons, hmasked,
                      Option.map_none']
                  have hrhs : ((r :: rest).zip ((l :: ls).zip (false :: vs))).filterMap
                        (keptSample (α := α))
                      = (rest.zip (ls.zip vs)).filterMap keptSample := by
                    simp only [List.zip_cons_cons, List.filterMap_cons]
                    rfl
                  constructor
                  · rw [hstep, hihEq, hrhs]
                  · rw [hstep]
                    simp only [hihLen, List.count_cons]
                    simp

/-- C4 is a code bug: `get_voltage_electroanatomic` mutates its input
case.  `i_egm = mesh_case.electric["egm"].T` is a numpy *view* of the
stored electrogram array, and `i_egm[~i_vp_egm] = np.nan` writes through
it.  Concretely: with stored egm `[[1, 2], [3, 4]]` (two time samples by
two mapping points) and the second mapping point outside the window of
interest, the stored array after the call is `[[1, NaN], [3, NaN]]` —
not its original value, contradicting the claim that the input arrays
are unchanged. -/
theorem C4_stored_egm_mutated :
    (get_voltage_electroanatomic
        [[some 1, some 2], [some 3, some 4]] [true, false]
        [(0, 0, 0), (1, 0, 0)] [(0, 0, 0)] (fun _ _ => 0)).1
      = [[some 1, none], [some 3, none]] ∧
    ([[some (1 : ℚ), none], [some 3, none]] : List (List (Option ℚ)))
      ≠ [[some 1, some 2], [some 3, some 4]] :=
  ⟨rfl, by decide⟩

/-- C6: samples flagged invalid (outside the window of interest) are
removed from both the amplitude array and the coordinate array before
the interpolator is fitted: the sample list handed to the interpolator
by `get_voltage_electroanatomic` consists exactly of the valid samples
(`keptSample`: original location and amplitude of the original
electrogram row for a valid flag, nothing for an invalid flag), so no
invalid sample contributes to the fit. -/
theorem C6_invalid_samples_removed_before_fit (egm : List (List (Option ℚ)))
    (i_vp : List Bool) (locations : List PointQ) (nodes : List PointQ)
    (fit : List (Option PointQ × ℚ) → PointQ → ℚ)
    (h1 : egm.transpose.length = i_vp.length)
    (h2 : locations.length = i_vp.length)
    (hrows : ∀ r ∈ egm.transpose, r ≠ [] ∧ ∀ x ∈ r, x ≠ none) :
    temp_pairs egm.transpose i_vp locations
      = (egm.transpose.zip (locations.zip i_vp)).filterMap keptSample ∧
    (get_voltage_electroanatomic egm i_vp locations nodes fit).2
      = interpolate
          ((egm.transpose.zip (locations.zip i_vp)).filterMap keptSample)
          10 fit nodes := by
  have h := (temp_pairs_spec egm.transpose i_vp locations h1 h2 hrows).1
  refine ⟨h, ?_⟩
  show interpolate (temp_pairs egm.transpose i_vp locations) 10 fit nodes = _
  rw [h]

/-- Witness for C6 at a concrete case: one time sample, two mapping
points, the second one invalid. -/
theorem C6_invalid_samples_removed_before_fit_witness :
    (egmEx.transpose.length = [true, false].length ∧
      ([((0 : ℚ), (0 : ℚ), (0 : ℚ)), ((1 : ℚ), (0 : ℚ), (0 : ℚ))].length
        = [true, false].length) ∧
      (∀ r ∈ egmEx.transpose, r ≠ [] ∧ ∀ x ∈ r, x ≠ none)) ∧
    (temp_pairs egmEx.transpose [true, false]
        [((0 : ℚ), (0 : ℚ), (0 : ℚ)), ((1 : ℚ), (0 : ℚ), (0 : ℚ))]
      = (egmEx.transpose.zip
          ([((0 : ℚ), (0 : ℚ), (0 : ℚ)), ((1 : ℚ), (0 : ℚ), (0 : ℚ))].zip
            [true, false])).filterMap keptSample ∧
    (get_voltage_electroanatomic egmEx [true, false]
        [((0 : ℚ), (0 : ℚ), (0 : ℚ)), ((1 : ℚ), (0 : ℚ), (0 : ℚ))] []
        (fun _ _ => 0)).2
      = interpolate
          ((egmEx.transpose.zip
            ([((0 : ℚ), (0 : ℚ), (0 : ℚ)), ((1 : ℚ), (0 : ℚ), (0 : ℚ))].zip
              [true, false])).filterMap keptSample)
          10 (fun _ _ => 0) []) :=
  ⟨⟨by decide, by decide, by decide⟩,
    C6_invalid_samples_removed_before_fit egmEx [true, false]
      [((0 : ℚ), (0 : ℚ), (0 : ℚ)), ((1 : ℚ), (0 : ℚ), (0 : ℚ))] []
      (fun _ _ => 0) (by decide) (by decide) (by decide)⟩

/-- C7: a target vertex farther than the distance threshold from every
valid source sample yields not-a-number.  When enough samples are fitted
(otherwise the call errors), the interpolation returns the pointwise
`interpolateAt` over the targets, and at a vertex `t` whose squared
distance to every sample coordinate exceeds the squared threshold the
value is `none` — never an extrapolation. -/
theorem C7_far_vertex_yields_nan (samples : List (Option PointQ × ℚ))
    (distanceThreshold : ℚ) (fit : List (Option PointQ × ℚ) → PointQ → ℚ)
    (targets : List PointQ) (t : PointQ)
    (hcount : ¬ samples.length < rbfMinSamples)
    (hfar : ∀ s ∈ samples, ∀ c : PointQ, s.1 = some c →
      distanceThreshold ^ 2 < distSq c t) :
    interpolate samples distanceThreshold fit targets
      = .ok (targets.map (interpolateAt samples distanceThreshold fit)) ∧
    interpolateAt samples distanceThreshold fit t = none := by
  constructor
  · unfold interpolate
    rw [if_neg hcount]
  · unfold interpolateAt
    rw [if_neg]
    intro hany
    rw [List.any_eq_true] at hany
    obtain ⟨s, hs, hc⟩ := hany
    rcases hseq : s.1 with _ | c
    · rw [hseq] at hc
      simp [Option.any] at hc
    · rw [hseq] at hc
      have hle : distSq c t ≤ distanceThreshold ^ 2 := by
        simpa [Option.any] using hc
      have := hfar s hs c hseq
      linarith

/-- Witness for C7: with threshold 1/2, the vertex (5,5,5) is farther
than the threshold from all four samples and receives `none`. -/
theorem C7_far_vertex_yields_nan_witness :
    (¬ farSamples.length < rbfMinSamples) ∧
    (interpolate farSamples (1 / 2) (fun _ _ => 0) [(5, 5, 5)]
        = .ok ([((5 : ℚ), (5 : ℚ), (5 : ℚ))].map
            (interpolateAt farSamples (1 / 2) (fun _ _ => 0))) ∧
      interpolateAt farSamples (1 / 2) (fun _ _ => 0)
          ((5 : ℚ), (5 : ℚ), (5 : ℚ)) = none) := by
  have hcount : ¬ farSamples.length < rbfMinSamples := by decide
  have hfar : ∀ s ∈ farSamples, ∀ c : PointQ, s.1 = some c →
      (1 / 2 : ℚ) ^ 2 < distSq c ((5 : ℚ), (5 : ℚ), (5 : ℚ)) := by
    intro s hs c hseq
    simp only [farSamples, List.mem_cons, List.not_mem_nil, or_false] at hs
    rcases hs with rfl | rfl | rfl | rfl <;>
      (rw [Option.some.injEq] at hseq; subst hseq; norm_num [distSq])
  exact ⟨hcount,
    C7_far_vertex_yields_nan farSamples (1 / 2) (fun _ _ => 0)
      [(5, 5, 5)] (5, 5, 5) hcount hfar⟩

/-- C9: when, after excluding the invalid samples, fewer valid samples
remain than the minimum required by RBF interpolation in 3-D (4), the
interpolation inside `get_voltage_electroanatomic` fails with
`InsufficientSamplesError` rather than returning a result. -/
theorem C9_insufficient_samples_error (egm : List (List (Option ℚ)))
    (i_vp : List Bool) (locations : List PointQ) (nodes : List PointQ)
    (fit : List (Option PointQ × ℚ) → PointQ → ℚ)
    (h1 : egm.transpose.length = i_vp.length)
    (h2 : locations.length = i_vp.length)
    (hrows : ∀ r ∈ egm.transpose, r ≠ [] ∧ ∀ x ∈ r, x ≠ none)
    (hfew : i_vp.count true < rbfMinSamples) :
    (get_voltage_electroanatomic egm i_vp locations nodes fit).2
      = .error .insufficientSamples := by
  have hlen := (temp_pairs_spec egm.transpose i_vp locations h1 h2 hrows).2
  have hcond : (temp_pairs egm.transpose i_vp locations).length
      < rbfMinSamples := by
    rw [hlen]
    exact hfew
  show interpolate (temp_pairs egm.transpose i_vp locations) 10 fit nodes = _
  unfold interpolate
  rw [if_pos hcond]

/-- Witness for C9 at a concrete case with 3 valid samples. -/
theorem C9_insufficient_samples_error_witness :
    ([true, true, true].count true < rbfMinSamples) ∧
    (get_voltage_electroanatomic egmEx3 [true, true, true]
        [((0 : ℚ), (0 : ℚ), (0 : ℚ)), ((1 : ℚ), (0 : ℚ), (0 : ℚ)),
          ((0 : ℚ), (1 : ℚ), (0 : ℚ))] [(0, 0, 0)] (fun _ _ => 0)).2
      = .error .insufficientSamples :=
  ⟨by decide,
    C9_insufficient_samples_error egmEx3 [true, true, true]
      [((0 : ℚ), (0 : ℚ), (0 : ℚ)), ((1 : ℚ), (0 : ℚ), (0 : ℚ)),
        ((0 : ℚ), (1 : ℚ), (0 : ℚ))] [(0, 0, 0)] (fun _ _ => 0)
      (by decide) (by decide) (by decide) (by decide)⟩

/-- C10: for every case whose mesh has at least one free-boundary loop,
`get_anatomical_structures` raises an unhandled `NameError`: the loop
body evaluates the bare name `line_length`, which is neither defined at
module level nor imported nor a builtin, so the call never reaches its
`return` statement. -/
theorem C10_get_anatomical_structures_name_error
    (freeboundary_points : List (List Point3))
    (h : freeboundary_points ≠ []) :
    resolvesName ("line_length") = false ∧
    get_anatomical_structures freeboundary_points
      = .error (.nameError ("line_length")) := by
  have hres : resolvesName ("line_length") = false := by decide
  refine ⟨hres, ?_⟩
  obtain ⟨c, rest, rfl⟩ := List.exists_cons_of_ne_nil h
  unfold get_anatomical_structures anatomical_loop
  rw [hres]
  simp

/-- Witness for C10 at a one-loop case. -/
theorem C10_get_anatomical_structures_name_error_witness :
    resolvesName ("line_length") = false ∧
    get_anatomical_structures [[((0 : ℝ), (0 : ℝ), (0 : ℝ))]]
      = .error (.nameError ("line_length")) :=
  C10_get_anatomical_structures_name_error [[((0 : ℝ), (0 : ℝ), (0 : ℝ))]]
    (by simp)
